import Mathlib

/-!
Verification of the stationery-shop inventory tracker (`src/nationbook.py`).

The program keeps a single in-memory mapping from a normalized item name to a
record `{category, quantity, publisher, price, min_stock}`.  We embed the
mapping as an insertion-ordered association list (Python `dict` semantics),
Python `int` as `Int`, and Python's decimal `price` as `ℚ`.  Name
normalization is Python's `.strip().title()`, modelled on the ASCII fragment
(`str.title` uppercases a letter after a non-cased character and lowercases
letters after a cased one; `str.strip` drops leading/trailing whitespace).
-/

namespace Nationbook

/-! ## Python string helpers: `.strip()` and `.title()` (ASCII model) -/

/-- Whitespace characters removed by Python `str.strip` (ASCII fragment):
space and `\t\n\v\f\r`. -/
def isPySpace (c : Char) : Bool :=
  decide (c.toNat = 32 ∨ (9 ≤ c.toNat ∧ c.toNat ≤ 13))

/-- ASCII lowercase letter test. -/
def isAsciiLower (c : Char) : Bool :=
  decide (97 ≤ c.toNat ∧ c.toNat ≤ 122)

/-- ASCII uppercase letter test. -/
def isAsciiUpper (c : Char) : Bool :=
  decide (65 ≤ c.toNat ∧ c.toNat ≤ 90)

/-- ASCII cased (alphabetic) character test; these are the characters that
start or continue a "word" for Python `str.title`. -/
def isAsciiAlpha (c : Char) : Bool :=
  isAsciiLower c || isAsciiUpper c

/-- Uppercase an ASCII letter, leave everything else unchanged. -/
def upChar (c : Char) : Char :=
  if isAsciiLower c then Char.ofNat (c.toNat - 32) else c

/-- Lowercase an ASCII letter, leave everything else unchanged. -/
def downChar (c : Char) : Char :=
  if isAsciiUpper c then Char.ofNat (c.toNat + 32) else c

/-- Python `str.title` over a character list.  The boolean state records
whether the previous character was cased: a letter after a non-cased
character is uppercased, a letter after a cased character is lowercased. -/
def titleList : Bool → List Char → List Char
  | _, [] => []
  | prevCased, c :: rest =>
    (if prevCased then downChar c else upChar c) :: titleList (isAsciiAlpha c) rest

/-- Python `str.strip` over a character list: drop whitespace from the front,
then from the back. -/
def stripList (l : List Char) : List Char :=
  List.rdropWhile isPySpace (List.dropWhile isPySpace l)

/-- Python `s.strip()`. -/
def pyStrip (s : String) : String := ⟨stripList s.data⟩

/-- Python `s.title()`. -/
def pyTitle (s : String) : String := ⟨titleList false s.data⟩

/-- The name normalization applied by the program at every name input site
(`nationbook.py` lines 25, 138, 181): `.strip().title()`. -/
def normalizeName (s : String) : String := pyTitle (pyStrip s)

/-! ## Data model

One record of `st.session_state.stationery_inventory` (`nationbook.py`
lines 40-46): Python `int` fields as `Int`, `price` (a Python decimal input)
as `ℚ`.  The inventory itself is an insertion-ordered association list, the
shallow embedding of a Python `dict`. -/

structure Item where
  category : String
  quantity : Int
  publisher : String
  price : ℚ
  min_stock : Int
deriving DecidableEq

/-- The in-memory inventory mapping (`st.session_state.stationery_inventory`). -/
abbrev Store := List (String × Item)

/-- Python `d[k]` as a total lookup: first binding of the key, if any. -/
def lookup : Store → String → Option Item
  | [], _ => none
  | (k, v) :: t, n => if k = n then some v else lookup t n

/-- Python `d[k] = v`: replace the binding in place if the key is present,
otherwise append the new binding at the end (dict insertion order). -/
def setKey : Store → String → Item → Store
  | [], n, v => [(n, v)]
  | (k, u) :: t, n, v => if k = n then (n, v) :: t else (k, u) :: setKey t n v

/-- Python `d.pop(k)` (the removal part): drop the binding of the key. -/
def popKey : Store → String → Store
  | [], _ => []
  | (k, u) :: t, n => if k = n then t else (k, u) :: popKey t n

/-- Line 37: `st.session_state.stationery_inventory[name]["quantity"] += quantity`. -/
def bumpQuantity : Store → String → Int → Store
  | [], _, _ => []
  | (k, v) :: t, n, q =>
    if k = n then (k, { v with quantity := v.quantity + q }) :: t
    else (k, v) :: bumpQuantity t n q

/-- A low-stock warning as surfaced by `check_stock_balance` line 124:
the item's name, its current quantity and its minimum threshold. -/
structure Warning where
  name : String
  current : Int
  minimum : Int
deriving DecidableEq

/-- The predicate the spec calls `isLowStock`: `quantity < min_stock`
(lines 68, 123 and 156 of the source all compare exactly this way). -/
def isLowStock (item : Item) : Bool :=
  decide (item.quantity < item.min_stock)

/-- `check_stock_balance(item_name)` for a single item (lines 121-124):
warn iff `item['quantity'] < item['min_stock']`.  A missing key would be a
Python `KeyError`; every call site passes a key that was just written, so we
model the miss as no warning. -/
def check_stock_balance (st : Store) (item_name : String) : Option Warning :=
  match lookup st item_name with
  | some item =>
    if item.quantity < item.min_stock then
      some ⟨item_name, item.quantity, item.min_stock⟩
    else none
  | none => none

/-- `check_stock_balance()` with no argument (lines 125-134): the names of
all items with `quantity < min_stock`, in insertion order. -/
def low_stock_names : Store → List String
  | [] => []
  | (k, v) :: t =>
    if v.quantity < v.min_stock then k :: low_stock_names t else low_stock_names t

/-- Outcome reported by the add form: the `st.success` / `st.error`
branches of lines 38, 47 and 52. -/
inductive AddOutcome where
  | created
  | updated
  | blankName
deriving DecidableEq

/-- `add_item` submit handler (lines 25-52).  The form reads
`name = st.text_input(...).strip().title()` and
`publisher = st.text_input(...).strip().title()`; on submit, a non-blank
name either increments the quantity of the existing record (ignoring the
other supplied fields) or inserts a fresh record, then runs the single-item
stock check on the affected key. -/
def add_item (st : Store) (name category publisher : String)
    (quantity : Int) (price : ℚ) (min_stock : Int) :
    Store × AddOutcome × Option Warning :=
  let n := normalizeName name
  let pub := normalizeName publisher
  if n = "" then (st, .blankName, none)
  else
    match lookup st n with
    | some _ =>
      let st' := bumpQuantity st n quantity
      (st', .updated, check_stock_balance st' n)
    | none =>
      let st' := setKey st n
        { category := category, quantity := quantity, publisher := pub,
          price := price, min_stock := min_stock }
      (st', .created, check_stock_balance st' n)

/-- Result of the search page (lines 138-161). -/
inductive SearchOutcome where
  | blank
  | notFound
  | found (item : Item) (low : Bool)
deriving DecidableEq

/-- `search_item` (lines 136-161): the term is `.strip().title()`-normalized;
an empty term renders nothing, a hit shows the record plus a low/adequate
stock message, a miss shows "Item not found!". -/
def search_item (st : Store) (raw : String) : SearchOutcome :=
  let term := normalizeName raw
  if term = "" then .blank
  else
    match lookup st term with
    | some item => .found item (decide (item.quantity < item.min_stock))
    | none => .notFound

/-- `update_item` submit handler (lines 163-226).  `selected_item` is chosen
from the existing keys; the new name is `.strip().title()`-normalized (line
181, the publisher is not normalized here).  If the name changed, the record
is re-keyed via `d[new] = d.pop(old)` (line 212) — silently overwriting any
existing record under the new key — then all fields are overwritten with the
supplied values (lines 216-222) and the single-item stock check runs on the
new key.  A `selected_item` not in the store would be a Python `KeyError`
(unreachable: the selectbox only offers existing keys), modelled as `none`. -/
def update_item (st : Store) (selected_item : String)
    (raw_new_name category publisher : String)
    (price : ℚ) (quantity min_stock : Int) :
    Option (Store × Option Warning) :=
  match lookup st selected_item with
  | none => none
  | some old =>
    let new_name := normalizeName raw_new_name
    let st1 :=
      if new_name ≠ selected_item then setKey (popKey st selected_item) new_name old
      else st
    let st2 := setKey st1 new_name
      { category := category, publisher := publisher, price := price,
        quantity := quantity, min_stock := min_stock }
    some (st2, check_stock_balance st2 new_name)

/-- Status string of a row of the view table (lines 67-70). -/
def statusOf (item : Item) : String :=
  if item.quantity ≥ item.min_stock then "🟢 Adequate" else "🔴 Low Stock"

/-- The two sidebar filters of `view_inventory` (lines 85-90): an optional
category equality filter, then an optional status filter implemented as
`Status.str.contains("🟢")` for "Adequate" and `…("🔴")` otherwise. -/
def filter_inventory (st : Store) (filter_category filter_status : String) :
    Store :=
  let d1 :=
    if filter_category ≠ "All" then
      List.filter (fun p => p.2.category == filter_category) st
    else st
  if filter_status ≠ "All" then
    List.filter
      (fun p => (statusOf p.2).data.contains
        (if filter_status = "Adequate" then '🟢' else '🔴')) d1
  else d1

/-- The four summary metrics of `view_inventory` (lines 101-105), computed
over the (possibly filtered) rows: row count, total quantity, total value
`Σ price·quantity`, and the number of rows whose status is "🔴 Low Stock". -/
structure Summary where
  total_items : Nat
  total_quantity : Int
  total_value : ℚ
  low_stock_items : Nat
deriving DecidableEq

def summary (items : Store) : Summary :=
  { total_items := List.length items
  , total_quantity := (List.map (fun p => p.2.quantity) items).sum
  , total_value := (List.map (fun p => p.2.price * (p.2.quantity : ℚ)) items).sum
  , low_stock_items :=
      (List.filter (fun p => statusOf p.2 == "🔴 Low Stock") items).length }

instance : Add Summary :=
  ⟨fun a b =>
    { total_items := a.total_items + b.total_items
    , total_quantity := a.total_quantity + b.total_quantity
    , total_value := a.total_value + b.total_value
    , low_stock_items := a.low_stock_items + b.low_stock_items }⟩

/-- The stores reachable by the UI when the numeric form inputs respect the
`min_value=0` constraints of the number fields (lines 29-31 and 189-206):
start empty, then any sequence of add and update submissions. -/
inductive Reachable : Store → Prop where
  | empty : Reachable []
  | add (st : Store) (name category publisher : String)
      (quantity : Int) (price : ℚ) (min_stock : Int) :
      Reachable st → 0 ≤ quantity → 0 ≤ price → 0 ≤ min_stock →
      Reachable (add_item st name category publisher quantity price min_stock).1
  | update (st : Store) (selected_item raw_new_name category publisher : String)
      (price : ℚ) (quantity min_stock : Int) (st' : Store) (w : Option Warning) :
      Reachable st → 0 ≤ quantity → 0 ≤ price → 0 ≤ min_stock →
      update_item st selected_item raw_new_name category publisher
        price quantity min_stock = some (st', w) →
      Reachable st'

/-- Sample records used by the witnesses below. -/
def itemA : Item :=
  { category := "Office Supplies", quantity := 10, publisher := "Abc",
    price := 3, min_stock := 5 }

def itemB : Item :=
  { category := "Paper Products", quantity := 2, publisher := "B",
    price := 2, min_stock := 5 }

def itemBoundary : Item :=
  { category := "Office Supplies", quantity := 5, publisher := "Abc",
    price := 3, min_stock := 5 }

/-! ### Character-level lemmas -/

theorem toNat_ofNat_of_valid (n : Nat) (h : n.isValidChar) :
    (Char.ofNat n).toNat = n := by
  rw [Char.ofNat, dif_pos h]
  rfl

theorem char_eq_of_toNat_eq {a b : Char} (h : a.toNat = b.toNat) : a = b :=
  Char.ext (UInt32.toNat.inj h)

theorem upChar_toNat (c : Char) :
    (upChar c).toNat =
      if 97 ≤ c.toNat ∧ c.toNat ≤ 122 then c.toNat - 32 else c.toNat := by
  rw [upChar, isAsciiLower]
  by_cases hp : 97 ≤ c.toNat ∧ c.toNat ≤ 122
  · rw [if_pos (decide_eq_true hp), if_pos hp]
    exact toNat_ofNat_of_valid _ (Or.inl (by omega))
  · rw [if_neg (by simpa using hp), if_neg hp]

theorem downChar_toNat (c : Char) :
    (downChar c).toNat =
      if 65 ≤ c.toNat ∧ c.toNat ≤ 90 then c.toNat + 32 else c.toNat := by
  rw [downChar, isAsciiUpper]
  by_cases hp : 65 ≤ c.toNat ∧ c.toNat ≤ 90
  · rw [if_pos (decide_eq_true hp), if_pos hp]
    exact toNat_ofNat_of_valid _ (Or.inl (by omega))
  · rw [if_neg (by simpa using hp), if_neg hp]

theorem upChar_idem (c : Char) : upChar (upChar c) = upChar c := by
  apply char_eq_of_toNat_eq
  rw [upChar_toNat, upChar_toNat]
  split_ifs <;> omega

theorem downChar_idem (c : Char) : downChar (downChar c) = downChar c := by
  apply char_eq_of_toNat_eq
  rw [downChar_toNat, downChar_toNat]
  split_ifs <;> omega

theorem isAsciiAlpha_upChar (c : Char) :
    isAsciiAlpha (upChar c) = isAsciiAlpha c := by
  rw [Bool.eq_iff_iff]
  simp only [isAsciiAlpha, isAsciiLower, isAsciiUpper, Bool.or_eq_true,
    decide_eq_true_eq, upChar_toNat]
  split_ifs <;> omega

theorem isAsciiAlpha_downChar (c : Char) :
    isAsciiAlpha (downChar c) = isAsciiAlpha c := by
  rw [Bool.eq_iff_iff]
  simp only [isAsciiAlpha, isAsciiLower, isAsciiUpper, Bool.or_eq_true,
    decide_eq_true_eq, downChar_toNat]
  split_ifs <;> omega

theorem isPySpace_upChar (c : Char) : isPySpace (upChar c) = isPySpace c := by
  rw [Bool.eq_iff_iff]
  simp only [isPySpace, decide_eq_true_eq, upChar_toNat]
  split_ifs <;> omega

theorem isPySpace_downChar (c : Char) : isPySpace (downChar c) = isPySpace c := by
  rw [Bool.eq_iff_iff]
  simp only [isPySpace, decide_eq_true_eq, downChar_toNat]
  split_ifs <;> omega

theorem upChar_of_space {c : Char} (h : isPySpace c = true) : upChar c = c := by
  apply char_eq_of_toNat_eq
  simp only [isPySpace, decide_eq_true_eq] at h
  rw [upChar_toNat]
  split_ifs <;> omega

theorem isAsciiAlpha_of_space {c : Char} (h : isPySpace c = true) :
    isAsciiAlpha c = false := by
  simp only [isPySpace, decide_eq_true_eq] at h
  simp only [isAsciiAlpha, isAsciiLower, isAsciiUpper, Bool.or_eq_false_iff,
    decide_eq_false_iff_not]
  omega

/-! ### `titleList` lemmas -/

theorem titleList_idem (l : List Char) :
    ∀ b : Bool, titleList b (titleList b l) = titleList b l := by
  induction l with
  | nil => intro b; rfl
  | cons c t ih =>
    intro b
    cases b with
    | false =>
      simp only [titleList, Bool.false_eq_true, if_false, upChar_idem,
        isAsciiAlpha_upChar]
      rw [ih]
    | true =>
      simp only [titleList, if_true, downChar_idem, isAsciiAlpha_downChar]
      rw [ih]

theorem dropWhile_titleList (l : List Char) :
    List.dropWhile isPySpace (titleList false l) =
      titleList false (List.dropWhile isPySpace l) := by
  induction l with
  | nil => rfl
  | cons c t ih =>
    by_cases h : isPySpace c = true
    · simp only [titleList, Bool.false_eq_true, if_false, upChar_of_space h,
        isAsciiAlpha_of_space h, List.dropWhile_cons, h, if_true]
      exact ih
    · have h' : isPySpace (upChar c) = false := by
        rw [isPySpace_upChar]; exact Bool.not_eq_true _ |>.mp h
      simp only [titleList, Bool.false_eq_true, if_false, List.dropWhile_cons,
        h', h, if_false]

theorem titleList_getLast?_space (l : List Char) :
    ∀ b : Bool, ((titleList b l).getLast?).map isPySpace =
      (l.getLast?).map isPySpace := by
  induction l with
  | nil => intro b; rfl
  | cons c t ih =>
    intro b
    cases t with
    | nil =>
      cases b with
      | false =>
        simp only [titleList, Bool.false_eq_true, if_false,
          List.getLast?_singleton, Option.map_some', isPySpace_upChar]
      | true =>
        simp only [titleList, if_true, List.getLast?_singleton,
          Option.map_some', isPySpace_downChar]
    | cons d t' =>
      have hL : titleList (isAsciiAlpha c) (d :: t') =
          (if isAsciiAlpha c then downChar d else upChar d) ::
            titleList (isAsciiAlpha d) t' := rfl
      calc ((titleList b (c :: d :: t')).getLast?).map isPySpace
          = ((titleList (isAsciiAlpha c) (d :: t')).getLast?).map isPySpace := by
            rw [show titleList b (c :: d :: t') =
              (if b then downChar c else upChar c) ::
                titleList (isAsciiAlpha c) (d :: t') from rfl]
            rw [hL, List.getLast?_cons_cons]
        _ = ((d :: t').getLast?).map isPySpace := ih _
        _ = ((c :: d :: t').getLast?).map isPySpace := by
            rw [List.getLast?_cons_cons]

/-! ### `stripList` lemmas -/

theorem dropWhile_stripList (l : List Char) :
    List.dropWhile isPySpace (stripList l) = stripList l := by
  rw [stripList]
  cases hb : List.rdropWhile isPySpace (List.dropWhile isPySpace l) with
  | nil => rfl
  | cons x b' =>
    obtain ⟨t, ht⟩ := List.rdropWhile_prefix isPySpace (List.dropWhile isPySpace l)
    rw [hb] at ht
    have hne : List.dropWhile isPySpace l ≠ [] := by
      rw [← ht]
      simp
    have hhead : (List.dropWhile isPySpace l).head? = some x := by
      rw [← ht]
      rfl
    rw [List.head?_eq_head hne] at hhead
    have hpx : isPySpace x = false := by
      have := List.head_dropWhile_not isPySpace l hne
      rw [Option.some.injEq] at hhead
      rw [← hhead]
      exact this
    simp [List.dropWhile_cons, hpx]

theorem stripList_idem (l : List Char) : stripList (stripList l) = stripList l := by
  conv_lhs => rw [stripList, dropWhile_stripList]
  rw [stripList, List.rdropWhile_idempotent]

theorem stripList_eq_self_of_ends (l : List Char)
    (h1 : List.dropWhile isPySpace l = l)
    (h2 : List.rdropWhile isPySpace l = l) : stripList l = l := by
  rw [stripList, h1, h2]

theorem stripList_titleList (l : List Char) (h : stripList l = l) :
    stripList (titleList false l) = titleList false l := by
  have h1 : List.dropWhile isPySpace l = l := by
    have h' := dropWhile_stripList l
    rw [h] at h'
    exact h'
  have h2 : List.rdropWhile isPySpace l = l := by
    have h' := h
    rw [stripList, h1] at h'
    exact h'
  apply stripList_eq_self_of_ends
  · rw [dropWhile_titleList, h1]
  · rw [List.rdropWhile_eq_self_iff]
    intro hX
    have hlne : l ≠ [] := by
      intro he
      rw [he] at hX
      exact hX rfl
    have hsp := titleList_getLast?_space l false
    rw [List.getLast?_eq_getLast _ hlne, List.getLast?_eq_getLast _ hX] at hsp
    simp only [Option.map_some', Option.some.injEq] at hsp
    rw [hsp]
    have := List.rdropWhile_eq_self_iff.mp h2 hlne
    exact this

theorem normalizeName_idem (s : String) :
    normalizeName (normalizeName s) = normalizeName s := by
  show pyTitle (pyStrip (pyTitle (pyStrip s))) = pyTitle (pyStrip s)
  have hdata : (pyTitle (pyStrip s)).data = titleList false (stripList s.data) := rfl
  rw [pyStrip, hdata, stripList_titleList _ (stripList_idem s.data)]
  show pyTitle ⟨titleList false (stripList s.data)⟩ = pyTitle ⟨stripList s.data⟩
  rw [pyTitle, pyTitle]
  show (⟨titleList false (titleList false (stripList s.data))⟩ : String) = _
  rw [titleList_idem]

/-! ## Association-list (dict) lemmas -/

theorem lookup_setKey_self (st : Store) (n : String) (v : Item) :
    lookup (setKey st n v) n = some v := by
  induction st with
  | nil => simp [setKey, lookup]
  | cons p t ih =>
    obtain ⟨k, u⟩ := p
    by_cases h : k = n
    · simp [setKey, h, lookup]
    · simp [setKey, h, lookup, ih]

theorem lookup_setKey_ne (st : Store) (n : String) (v : Item) (k : String)
    (h : k ≠ n) : lookup (setKey st n v) k = lookup st k := by
  have hnk : n ≠ k := fun he => h he.symm
  induction st with
  | nil =>
    show lookup [(n, v)] k = none
    rw [lookup, if_neg hnk]
    rfl
  | cons p t ih =>
    obtain ⟨k', u⟩ := p
    by_cases h' : k' = n
    · subst h'
      rw [setKey, if_pos rfl, lookup, lookup, if_neg hnk, if_neg hnk]
    · rw [setKey, if_neg h', lookup, lookup, ih]

theorem setKey_of_lookup_none (st : Store) (n : String) (v : Item)
    (h : lookup st n = none) : setKey st n v = st ++ [(n, v)] := by
  induction st with
  | nil => rfl
  | cons p t ih =>
    obtain ⟨k, u⟩ := p
    rw [lookup] at h
    by_cases h' : k = n
    · rw [if_pos h'] at h
      exact absurd h (by simp)
    · rw [if_neg h'] at h
      show setKey ((k, u) :: t) n v = (k, u) :: (t ++ [(n, v)])
      rw [setKey, if_neg h', ih h]

theorem mem_setKey (st : Store) (n : String) (v : Item) (p : String × Item)
    (h : p ∈ setKey st n v) : p ∈ st ∨ p = (n, v) := by
  induction st with
  | nil =>
    rw [setKey, List.mem_singleton] at h
    exact Or.inr h
  | cons q t ih =>
    obtain ⟨k, u⟩ := q
    by_cases h' : k = n
    · rw [setKey, if_pos h'] at h
      rcases List.mem_cons.mp h with h1 | h1
      · exact Or.inr h1
      · exact Or.inl (List.mem_cons_of_mem _ h1)
    · rw [setKey, if_neg h'] at h
      rcases List.mem_cons.mp h with h1 | h1
      · exact Or.inl (h1 ▸ List.mem_cons_self _ _)
      · rcases ih h1 with h2 | h2
        · exact Or.inl (List.mem_cons_of_mem _ h2)
        · exact Or.inr h2

theorem lookup_popKey_ne (st : Store) (n k : String) (h : k ≠ n) :
    lookup (popKey st n) k = lookup st k := by
  induction st with
  | nil => rfl
  | cons p t ih =>
    obtain ⟨k', u⟩ := p
    by_cases h' : k' = n
    · subst h'
      rw [popKey, if_pos rfl, lookup, if_neg (fun he => h he.symm)]
    · rw [popKey, if_neg h', lookup, lookup]
      by_cases h'' : k' = k
      · rw [if_pos h'', if_pos h'']
      · rw [if_neg h'', if_neg h'', ih]

theorem lookup_eq_none_of_not_mem_keys (st : Store) (n : String)
    (h : n ∉ List.map Prod.fst st) : lookup st n = none := by
  induction st with
  | nil => rfl
  | cons p t ih =>
    obtain ⟨k, u⟩ := p
    rw [List.map_cons, List.mem_cons] at h
    push_neg at h
    rw [lookup, if_neg (fun he => h.1 he.symm)]
    exact ih h.2

theorem lookup_popKey_self (st : Store) (n : String)
    (hnd : (List.map Prod.fst st).Nodup) : lookup (popKey st n) n = none := by
  induction st with
  | nil => rfl
  | cons p t ih =>
    obtain ⟨k, u⟩ := p
    rw [List.map_cons, List.nodup_cons] at hnd
    by_cases h : k = n
    · subst h
      rw [popKey, if_pos rfl]
      exact lookup_eq_none_of_not_mem_keys t k hnd.1
    · rw [popKey, if_neg h, lookup, if_neg h]
      exact ih hnd.2

theorem mem_popKey (st : Store) (n : String) (p : String × Item)
    (h : p ∈ popKey st n) : p ∈ st := by
  induction st with
  | nil => exact absurd h (List.not_mem_nil p)
  | cons q t ih =>
    obtain ⟨k, u⟩ := q
    by_cases h' : k = n
    · rw [popKey, if_pos h'] at h
      exact List.mem_cons_of_mem _ h
    · rw [popKey, if_neg h'] at h
      rcases List.mem_cons.mp h with h1 | h1
      · exact h1 ▸ List.mem_cons_self _ _
      · exact List.mem_cons_of_mem _ (ih h1)

theorem lookup_bumpQuantity_self (st : Store) (n : String) (q : Int) :
    lookup (bumpQuantity st n q) n =
      (lookup st n).map (fun v => { v with quantity := v.quantity + q }) := by
  induction st with
  | nil => rfl
  | cons p t ih =>
    obtain ⟨k, u⟩ := p
    by_cases h : k = n
    · rw [bumpQuantity, if_pos h, lookup, if_pos h, lookup, if_pos h,
        Option.map_some']
    · rw [bumpQuantity, if_neg h, lookup, if_neg h, lookup, if_neg h, ih]

theorem lookup_bumpQuantity_ne (st : Store) (n : String) (q : Int) (k : String)
    (h : k ≠ n) : lookup (bumpQuantity st n q) k = lookup st k := by
  induction st with
  | nil => rfl
  | cons p t ih =>
    obtain ⟨k', u⟩ := p
    by_cases h' : k' = n
    · subst h'
      rw [bumpQuantity, if_pos rfl, lookup, if_neg (fun he => h he.symm),
        lookup, if_neg (fun he => h he.symm)]
    · rw [bumpQuantity, if_neg h', lookup, lookup]
      by_cases h'' : k' = k
      · rw [if_pos h'', if_pos h'']
      · rw [if_neg h'', if_neg h'', ih]

theorem mem_bumpQuantity (st : Store) (n : String) (q : Int) (p : String × Item)
    (h : p ∈ bumpQuantity st n q) :
    p ∈ st ∨ ∃ v, (n, v) ∈ st ∧ p = (n, { v with quantity := v.quantity + q }) := by
  induction st with
  | nil => exact absurd h (List.not_mem_nil p)
  | cons r t ih =>
    obtain ⟨k, u⟩ := r
    by_cases h' : k = n
    · subst h'
      rw [bumpQuantity, if_pos rfl] at h
      rcases List.mem_cons.mp h with h1 | h1
      · exact Or.inr ⟨u, List.mem_cons_self _ _, h1⟩
      · exact Or.inl (List.mem_cons_of_mem _ h1)
    · rw [bumpQuantity, if_neg h'] at h
      rcases List.mem_cons.mp h with h1 | h1
      · exact Or.inl (h1 ▸ List.mem_cons_self _ _)
      · rcases ih h1 with h2 | h2
        · exact Or.inl (List.mem_cons_of_mem _ h2)
        · obtain ⟨v, hv, hp⟩ := h2
          exact Or.inr ⟨v, List.mem_cons_of_mem _ hv, hp⟩

theorem mem_of_lookup_eq_some {st : Store} {n : String} {v : Item}
    (h : lookup st n = some v) : (n, v) ∈ st := by
  induction st with
  | nil => exact absurd h (by simp [lookup])
  | cons p t ih =>
    obtain ⟨k, u⟩ := p
    rw [lookup] at h
    by_cases h' : k = n
    · rw [if_pos h'] at h
      subst h'
      rw [Option.some.injEq] at h
      subst h
      exact List.mem_cons_self _ _
    · rw [if_neg h'] at h
      exact List.mem_cons_of_mem _ (ih h)

/-! ## Status and summary lemmas -/

theorem statusOf_eq_low_iff (item : Item) :
    statusOf item = "🔴 Low Stock" ↔ item.quantity < item.min_stock := by
  rw [statusOf]
  by_cases h : item.quantity ≥ item.min_stock
  · rw [if_pos h]
    constructor
    · intro he
      exact absurd he (by decide)
    · intro hlt
      omega
  · rw [if_neg h]
    constructor
    · intro _
      omega
    · intro _
      rfl

theorem statusOf_eq_adequate_iff (item : Item) :
    statusOf item = "🟢 Adequate" ↔ item.min_stock ≤ item.quantity := by
  rw [statusOf]
  by_cases h : item.quantity ≥ item.min_stock
  · rw [if_pos h]
    exact ⟨fun _ => h, fun _ => rfl⟩
  · rw [if_neg h]
    constructor
    · intro he
      exact absurd he.symm (by decide)
    · intro hle
      exact absurd hle h

theorem contains_red_statusOf (item : Item) :
    ((statusOf item).data.contains '🔴') = isLowStock item := by
  rw [statusOf, isLowStock]
  by_cases hl : item.quantity < item.min_stock
  · rw [if_neg (by omega), decide_eq_true hl]
    decide
  · rw [if_pos (by omega), decide_eq_false hl]
    decide

theorem check_stock_balance_eq (st : Store) (n : String) (item : Item)
    (h : lookup st n = some item) :
    check_stock_balance st n =
      if isLowStock item then some ⟨n, item.quantity, item.min_stock⟩ else none := by
  simp only [check_stock_balance, h]
  by_cases hl : item.quantity < item.min_stock <;> simp [isLowStock, hl]

theorem mem_low_stock_names (st : Store) (k : String) :
    k ∈ low_stock_names st ↔
      ∃ item, (k, item) ∈ st ∧ item.quantity < item.min_stock := by
  induction st with
  | nil => simp [low_stock_names]
  | cons p t ih =>
    obtain ⟨k', v⟩ := p
    by_cases hv : v.quantity < v.min_stock
    · rw [low_stock_names, if_pos hv]
      simp only [List.mem_cons, ih, Prod.mk.injEq]
      constructor
      · rintro (rfl | ⟨item, hm, hlow⟩)
        · exact ⟨v, Or.inl ⟨rfl, rfl⟩, hv⟩
        · exact ⟨item, Or.inr hm, hlow⟩
      · rintro ⟨item, (⟨rfl, rfl⟩ | hm), hlow⟩
        · exact Or.inl rfl
        · exact Or.inr ⟨item, hm, hlow⟩
    · rw [low_stock_names, if_neg hv]
      rw [ih]
      constructor
      · rintro ⟨item, hm, hlow⟩
        exact ⟨item, List.mem_cons_of_mem _ hm, hlow⟩
      · rintro ⟨item, hm, hlow⟩
        rcases List.mem_cons.mp hm with h1 | h1
        · rw [Prod.mk.injEq] at h1
          obtain ⟨he1, he2⟩ := h1
          subst he2
          exact absurd hlow hv
        · exact ⟨item, h1, hlow⟩

theorem Summary.ext4 {a b : Summary}
    (h1 : a.total_items = b.total_items)
    (h2 : a.total_quantity = b.total_quantity)
    (h3 : a.total_value = b.total_value)
    (h4 : a.low_stock_items = b.low_stock_items) : a = b := by
  cases a
  cases b
  simp only [Summary.mk.injEq]
  exact ⟨h1, h2, h3, h4⟩

theorem add_total_items (a b : Summary) :
    (a + b).total_items = a.total_items + b.total_items := rfl

theorem add_total_quantity (a b : Summary) :
    (a + b).total_quantity = a.total_quantity + b.total_quantity := rfl

theorem add_total_value (a b : Summary) :
    (a + b).total_value = a.total_value + b.total_value := rfl

theorem add_low_stock_items (a b : Summary) :
    (a + b).low_stock_items = a.low_stock_items + b.low_stock_items := rfl

theorem length_filter_partition {α : Type} (q : α → Bool) (l : List α) :
    l.length = (l.filter q).length + (l.filter (fun a => !q a)).length := by
  induction l with
  | nil => rfl
  | cons a t ih =>
    cases hq : q a <;>
      simp only [List.filter_cons, hq, Bool.not_true, Bool.not_false,
        Bool.false_eq_true, if_false, if_true, List.length_cons, ih] <;>
      omega

theorem sum_map_filter_partition {α : Type} {M : Type} [AddCommMonoid M]
    (f : α → M) (q : α → Bool) (l : List α) :
    (l.map f).sum =
      ((l.filter q).map f).sum + ((l.filter (fun a => !q a)).map f).sum := by
  induction l with
  | nil => simp
  | cons a t ih =>
    cases hq : q a <;>
      simp only [List.filter_cons, hq, Bool.not_true, Bool.not_false,
        Bool.false_eq_true, if_false, if_true, List.map_cons, List.sum_cons, ih] <;>
      abel

theorem length_filter_filter_partition {α : Type} (r q : α → Bool) (l : List α) :
    (l.filter r).length =
      ((l.filter q).filter r).length +
        ((l.filter (fun a => !q a)).filter r).length := by
  induction l with
  | nil => rfl
  | cons a t ih =>
    cases hq : q a <;> cases hr : r a <;>
      simp only [List.filter_cons, hq, hr, Bool.not_true, Bool.not_false,
        Bool.false_eq_true, if_false, if_true, List.length_cons, ih] <;>
      omega

theorem summary_filter_partition (q : String × Item → Bool) (st : Store) :
    summary st = summary (st.filter q) + summary (st.filter (fun p => !q p)) := by
  apply Summary.ext4
  · rw [add_total_items]
    exact length_filter_partition q st
  · rw [add_total_quantity]
    exact sum_map_filter_partition _ q st
  · rw [add_total_value]
    exact sum_map_filter_partition _ q st
  · rw [add_low_stock_items]
    exact length_filter_filter_partition _ q st

/-! ## Branch equations for the two submit handlers -/

theorem add_item_eq_blank (st : Store) (name category publisher : String)
    (quantity : Int) (price : ℚ) (min_stock : Int)
    (h : normalizeName name = "") :
    add_item st name category publisher quantity price min_stock =
      (st, AddOutcome.blankName, none) := by
  simp only [add_item]
  rw [if_pos h]

theorem add_item_eq_absent (st : Store) (name category publisher : String)
    (quantity : Int) (price : ℚ) (min_stock : Int)
    (h : normalizeName name ≠ "")
    (h2 : lookup st (normalizeName name) = none) :
    add_item st name category publisher quantity price min_stock =
      (setKey st (normalizeName name)
        { category := category, quantity := quantity,
          publisher := normalizeName publisher, price := price,
          min_stock := min_stock },
       AddOutcome.created,
       check_stock_balance
         (setKey st (normalizeName name)
           { category := category, quantity := quantity,
             publisher := normalizeName publisher, price := price,
             min_stock := min_stock })
         (normalizeName name)) := by
  simp only [add_item]
  rw [if_neg h, h2]

theorem add_item_eq_present (st : Store) (name category publisher : String)
    (quantity : Int) (price : ℚ) (min_stock : Int) (old : Item)
    (h : normalizeName name ≠ "")
    (h2 : lookup st (normalizeName name) = some old) :
    add_item st name category publisher quantity price min_stock =
      (bumpQuantity st (normalizeName name) quantity,
       AddOutcome.updated,
       check_stock_balance (bumpQuantity st (normalizeName name) quantity)
         (normalizeName name)) := by
  simp only [add_item]
  rw [if_neg h, h2]

theorem update_item_eq (st : Store)
    (selected_item raw_new_name category publisher : String)
    (price : ℚ) (quantity min_stock : Int) (old : Item)
    (hsel : lookup st selected_item = some old) :
    update_item st selected_item raw_new_name category publisher
        price quantity min_stock =
      some
        (setKey
          (if normalizeName raw_new_name ≠ selected_item then
            setKey (popKey st selected_item) (normalizeName raw_new_name) old
          else st)
          (normalizeName raw_new_name)
          { category := category, publisher := publisher, price := price,
            quantity := quantity, min_stock := min_stock },
         check_stock_balance
           (setKey
             (if normalizeName raw_new_name ≠ selected_item then
               setKey (popKey st selected_item) (normalizeName raw_new_name) old
             else st)
             (normalizeName raw_new_name)
             { category := category, publisher := publisher, price := price,
               quantity := quantity, min_stock := min_stock })
           (normalizeName raw_new_name)) := by
  simp only [update_item]
  rw [hsel]

/-! ## Shared helper for the update re-key path -/

theorem update_item_rekey_aux (st : Store)
    (selected_item raw_new_name category publisher : String)
    (price : ℚ) (quantity min_stock : Int) (old : Item)
    (hnd : (List.map Prod.fst st).Nodup)
    (hsel : lookup st selected_item = some old)
    (hne : normalizeName raw_new_name ≠ selected_item) :
    ∃ st' w,
      update_item st selected_item raw_new_name category publisher
          price quantity min_stock = some (st', w) ∧
      lookup st' (normalizeName raw_new_name) =
        some { category := category, publisher := publisher, price := price,
               quantity := quantity, min_stock := min_stock } ∧
      lookup st' selected_item = none ∧
      ∀ k, k ≠ normalizeName raw_new_name → k ≠ selected_item →
        lookup st' k = lookup st k := by
  have hsne : selected_item ≠ normalizeName raw_new_name := fun he => hne he.symm
  refine ⟨setKey (setKey (popKey st selected_item) (normalizeName raw_new_name) old)
      (normalizeName raw_new_name)
      { category := category, publisher := publisher, price := price,
        quantity := quantity, min_stock := min_stock },
    check_stock_balance
      (setKey (setKey (popKey st selected_item) (normalizeName raw_new_name) old)
        (normalizeName raw_new_name)
        { category := category, publisher := publisher, price := price,
          quantity := quantity, min_stock := min_stock })
      (normalizeName raw_new_name), ?_, ?_, ?_, ?_⟩
  · rw [update_item_eq st selected_item raw_new_name category publisher
      price quantity min_stock old hsel, if_pos hne]
  · exact lookup_setKey_self _ _ _
  · rw [lookup_setKey_ne _ _ _ _ hsne, lookup_setKey_ne _ _ _ _ hsne]
    exact lookup_popKey_self st selected_item hnd
  · intro k hk1 hk2
    rw [lookup_setKey_ne _ _ _ _ hk1, lookup_setKey_ne _ _ _ _ hk1,
      lookup_popKey_ne _ _ _ hk2]

/-! ## The claims -/

/-- C1: for every store and add input whose normalized name is non-empty:
if no record exists under the normalized name, `add_item` appends exactly one
new record carrying the supplied category, (form-normalized) publisher,
price, quantity and minimum stock and reports a "created" outcome; if a
record already exists under that key, it adds the supplied quantity to that
record's quantity, leaves its category, publisher, price and `min_stock`
unchanged (ignoring the supplied values), leaves every other key untouched,
and reports an "updated" outcome. -/
theorem add_item_spec (st : Store) (name category publisher : String)
    (quantity : Int) (price : ℚ) (min_stock : Int)
    (h : normalizeName name ≠ "") :
    (lookup st (normalizeName name) = none →
      (add_item st name category publisher quantity price min_stock).1 =
          st ++ [(normalizeName name,
            { category := category, quantity := quantity,
              publisher := normalizeName publisher, price := price,
              min_stock := min_stock })] ∧
        (add_item st name category publisher quantity price min_stock).2.1 =
          AddOutcome.created) ∧
    (∀ old, lookup st (normalizeName name) = some old →
      (add_item st name category publisher quantity price min_stock).2.1 =
          AddOutcome.updated ∧
        lookup (add_item st name category publisher quantity price min_stock).1
            (normalizeName name) =
          some { old with quantity := old.quantity + quantity } ∧
        ∀ k, k ≠ normalizeName name →
          lookup (add_item st name category publisher quantity price min_stock).1
              k =
            lookup st k) := by
  constructor
  · intro h2
    rw [add_item_eq_absent st name category publisher quantity price min_stock h h2]
    exact ⟨setKey_of_lookup_none st _ _ h2, rfl⟩
  · intro old h2
    rw [add_item_eq_present st name category publisher quantity price min_stock old h h2]
    refine ⟨rfl, ?_, ?_⟩
    · rw [lookup_bumpQuantity_self, h2, Option.map_some']
    · intro k hk
      exact lookup_bumpQuantity_ne st _ quantity k hk

/-- Witness for C1: both branches at concrete inputs.  Adding " pen " to the
empty store creates the record under "Pen"; adding again increments only the
quantity. -/
theorem add_item_spec_witness :
    ((add_item [] " pen " "Office Supplies" " abc " 10 3 5).1 =
        [] ++ [("Pen",
          { category := "Office Supplies", quantity := 10, publisher := "Abc",
            price := 3, min_stock := 5 })] ∧
      (add_item [] " pen " "Office Supplies" " abc " 10 3 5).2.1 =
        AddOutcome.created) ∧
    ((add_item [("Pen",
        { category := "Office Supplies", quantity := 10, publisher := "Abc",
          price := 3, min_stock := 5 })] "PEN" "Art & Craft" "zz" 3 9 7).2.1 =
        AddOutcome.updated ∧
      lookup (add_item [("Pen",
          { category := "Office Supplies", quantity := 10, publisher := "Abc",
            price := 3, min_stock := 5 })] "PEN" "Art & Craft" "zz" 3 9 7).1
          (normalizeName "PEN") =
        some { category := "Office Supplies", quantity := 13, publisher := "Abc",
               price := 3, min_stock := 5 }) :=
  ⟨(add_item_spec [] " pen " "Office Supplies" " abc " 10 3 5
      (by decide)).1 (by decide),
    by
      have h := ((add_item_spec [("Pen",
          { category := "Office Supplies", quantity := 10, publisher := "Abc",
            price := 3, min_stock := 5 })] "PEN" "Art & Craft" "zz" 3 9 7
        (by decide)).2
          { category := "Office Supplies", quantity := 10, publisher := "Abc",
            price := 3, min_stock := 5 } (by decide))
      exact ⟨h.1, h.2.1⟩⟩

/-- C2: for every store (with dict-unique keys) containing a record under
`oldName`, updating it with a normalized new name different from `oldName`
moves the record to the new key (all fields replaced by the supplied values)
and removes the old key; any pre-existing record under the new key is
silently replaced (no error: `update_item` still returns a result), and all
other keys are untouched. -/
theorem update_item_rename_spec (st : Store)
    (selected_item raw_new_name category publisher : String)
    (price : ℚ) (quantity min_stock : Int) (old : Item)
    (hnd : (List.map Prod.fst st).Nodup)
    (hsel : lookup st selected_item = some old)
    (hne : normalizeName raw_new_name ≠ selected_item) :
    ∃ st' w,
      update_item st selected_item raw_new_name category publisher
          price quantity min_stock = some (st', w) ∧
      lookup st' (normalizeName raw_new_name) =
        some { category := category, publisher := publisher, price := price,
               quantity := quantity, min_stock := min_stock } ∧
      lookup st' selected_item = none ∧
      ∀ k, k ≠ normalizeName raw_new_name → k ≠ selected_item →
        lookup st' k = lookup st k :=
  update_item_rekey_aux st selected_item raw_new_name category publisher
    price quantity min_stock old hnd hsel hne

/-- Witness for C2: renaming "Pen" to " pencil " in a two-item store where
"Pencil" already exists overwrites the unrelated "Pencil" record and removes
"Pen". -/
theorem update_item_rename_spec_witness :
    ∃ st' w,
      update_item [("Pen", itemA), ("Pencil", itemB)] "Pen" " pencil "
          "Art & Craft" "Zz" 4 7 6 = some (st', w) ∧
      lookup st' (normalizeName " pencil ") =
        some { category := "Art & Craft", publisher := "Zz", price := 4,
               quantity := 7, min_stock := 6 } ∧
      lookup st' "Pen" = none ∧
      ∀ k, k ≠ normalizeName " pencil " → k ≠ "Pen" →
        lookup st' k = lookup [("Pen", itemA), ("Pencil", itemB)] k :=
  update_item_rename_spec [("Pen", itemA), ("Pencil", itemB)] "Pen" " pencil "
    "Art & Craft" "Zz" 4 7 6 itemA (by decide) (by decide) (by decide)

/-- C9 (implicit): `update_item` performs no blank-name validation.  For
every store (with dict-unique keys) containing a record under a non-empty
`oldName`, an update whose new name normalizes to the empty string succeeds
(no `ValidationError`): the record is re-keyed to the empty-string key `""`
and `oldName` is removed. -/
theorem update_item_blank_name_spec (st : Store)
    (selected_item raw_new_name category publisher : String)
    (price : ℚ) (quantity min_stock : Int) (old : Item)
    (hnd : (List.map Prod.fst st).Nodup)
    (hsel : lookup st selected_item = some old)
    (hblank : normalizeName raw_new_name = "")
    (hselne : selected_item ≠ "") :
    ∃ st' w,
      update_item st selected_item raw_new_name category publisher
          price quantity min_stock = some (st', w) ∧
      lookup st' "" =
        some { category := category, publisher := publisher, price := price,
               quantity := quantity, min_stock := min_stock } ∧
      lookup st' selected_item = none := by
  have hne : normalizeName raw_new_name ≠ selected_item := by
    rw [hblank]
    exact fun he => hselne he.symm
  obtain ⟨st', w, h1, h2, h3, _⟩ :=
    update_item_rekey_aux st selected_item raw_new_name category publisher
      price quantity min_stock old hnd hsel hne
  rw [hblank] at h2
  exact ⟨st', w, h1, h2, h3⟩

/-- Witness for C9: updating "Pen" with the whitespace-only name "   "
re-keys the record to `""`. -/
theorem update_item_blank_name_spec_witness :
    ∃ st' w,
      update_item [("Pen", itemA)] "Pen" "   " "Art & Craft" "Zz" 4 7 6 =
        some (st', w) ∧
      lookup st' "" =
        some { category := "Art & Craft", publisher := "Zz", price := 4,
               quantity := 7, min_stock := 6 } ∧
      lookup st' "Pen" = none :=
  update_item_blank_name_spec [("Pen", itemA)] "Pen" "   " "Art & Craft" "Zz"
    4 7 6 itemA (by decide) (by decide) (by decide) (by decide)

/-- C3: the low-stock predicate is `quantity < min_stock`; at the boundary
`quantity = min_stock` the status is "🟢 Adequate", not low.  The same
predicate drives the view status column (`statusOf`), the single-item stock
check used after add/update (`check_stock_balance`), and the search result's
stock message (`search_item`). -/
theorem isLowStock_spec (item : Item) (st : Store) (n raw : String) :
    (isLowStock item = true ↔ item.quantity < item.min_stock) ∧
    (statusOf item = "🔴 Low Stock" ↔ isLowStock item = true) ∧
    (statusOf item = "🟢 Adequate" ↔ isLowStock item = false) ∧
    (item.quantity = item.min_stock → statusOf item = "🟢 Adequate") ∧
    (lookup st n = some item →
      check_stock_balance st n =
        if isLowStock item then some ⟨n, item.quantity, item.min_stock⟩
        else none) ∧
    (normalizeName raw ≠ "" → lookup st (normalizeName raw) = some item →
      search_item st raw = SearchOutcome.found item (isLowStock item)) := by
  refine ⟨by simp [isLowStock], ?_, ?_, ?_, ?_, ?_⟩
  · rw [statusOf_eq_low_iff]
    simp [isLowStock]
  · rw [statusOf_eq_adequate_iff]
    simp only [isLowStock, decide_eq_false_iff_not]
    omega
  · intro hb
    rw [statusOf_eq_adequate_iff]
    omega
  · intro hl
    exact check_stock_balance_eq st n item hl
  · intro h1 h2
    rw [search_item]
    simp only [if_neg h1, h2, isLowStock]

/-- Witness for C3: a boundary item (quantity = min_stock = 5) is adequate;
the stock check and search agree with `isLowStock` on a concrete store. -/
theorem isLowStock_spec_witness :
    statusOf itemBoundary = "🟢 Adequate" ∧
    check_stock_balance [("Pencil", itemB)] "Pencil" =
      (if isLowStock itemB then some ⟨"Pencil", itemB.quantity, itemB.min_stock⟩
       else none) ∧
    search_item [("Pencil", itemB)] "PENCIL" =
      SearchOutcome.found itemB (isLowStock itemB) :=
  ⟨(isLowStock_spec itemBoundary [] "" "").2.2.2.1 (by decide),
   (isLowStock_spec itemB [("Pencil", itemB)] "Pencil" "").2.2.2.2.1 (by decide),
   (isLowStock_spec itemB [("Pencil", itemB)] "" "PENCIL").2.2.2.2.2
     (by decide) (by decide)⟩

/-- C4: filtering the view with category "All" and status "Low Stock"
keeps exactly the rows with `quantity < min_stock`. -/
theorem filter_low_stock_spec (st : Store) (p : String × Item) :
    p ∈ filter_inventory st "All" "Low Stock" ↔
      p ∈ st ∧ p.2.quantity < p.2.min_stock := by
  have hAll : ¬ (("All" : String) ≠ "All") := by simp
  have hLS : ("Low Stock" : String) ≠ "All" := by decide
  have hchar : (if ("Low Stock" : String) = "Adequate" then '🟢' else '🔴') =
      '🔴' := by decide
  rw [filter_inventory]
  simp only [hAll, if_false, if_neg hAll, if_pos hLS, hchar, List.mem_filter,
    contains_red_statusOf, isLowStock, decide_eq_true_eq]

/-- C5: the summary metrics are additive over a partition of the inventory by
two categories.  If every item's category is `A` or `B` (with `A ≠ B`, and
neither equal to the reserved filter value "All"), then each of the four
summary fields over the whole inventory is the sum of that field over the
category-`A` rows and over the category-`B` rows. -/
theorem summary_additive_spec (st : Store) (A B : String)
    (hA : A ≠ "All") (hB : B ≠ "All") (hAB : A ≠ B)
    (hcov : ∀ p ∈ st, p.2.category = A ∨ p.2.category = B) :
    summary st =
      summary (filter_inventory st A "All") +
        summary (filter_inventory st B "All") := by
  have hfA : filter_inventory st A "All" =
      List.filter (fun p => p.2.category == A) st := by
    rw [filter_inventory]
    rw [if_pos hA, if_neg (by simp)]
  have hfB : filter_inventory st B "All" =
      List.filter (fun p => p.2.category == B) st := by
    rw [filter_inventory]
    rw [if_pos hB, if_neg (by simp)]
  rw [hfA, hfB]
  have hcongr : List.filter (fun p => p.2.category == B) st =
      List.filter (fun p => !(p.2.category == A)) st := by
    apply List.filter_congr
    intro p hp
    rcases hcov p hp with h | h
    · rw [h]
      have h1 : (A == B) = false := by
        rw [beq_eq_false_iff_ne]
        exact hAB
      have h2 : (A == A) = true := by
        rw [beq_iff_eq]
      rw [h1, h2]
      rfl
    · rw [h]
      have h1 : (B == B) = true := by
        rw [beq_iff_eq]
      have h2 : (B == A) = false := by
        rw [beq_eq_false_iff_ne]
        exact fun he => hAB he.symm
      rw [h1, h2]
      rfl
  rw [hcongr]
  exact summary_filter_partition _ st

/-- Witness for C5 at a concrete two-category store. -/
theorem summary_additive_spec_witness :
    summary [("Pen", itemA), ("Pad", itemB)] =
      summary (filter_inventory [("Pen", itemA), ("Pad", itemB)]
          "Office Supplies" "All") +
        summary (filter_inventory [("Pen", itemA), ("Pad", itemB)]
          "Paper Products" "All") :=
  summary_additive_spec [("Pen", itemA), ("Pad", itemB)]
    "Office Supplies" "Paper Products" (by decide) (by decide) (by decide)
    (by decide)

/-- C6: every add with a non-blank name and every update surface a warning
naming the affected item, its current quantity and its threshold exactly
when the resulting record is below its threshold; and the all-items check
used when viewing lists exactly the currently-low names. -/
theorem low_stock_alert_spec :
    (∀ (st : Store) (name category publisher : String) (quantity : Int)
        (price : ℚ) (min_stock : Int),
      normalizeName name ≠ "" →
      ∃ item,
        lookup (add_item st name category publisher quantity price min_stock).1
            (normalizeName name) = some item ∧
        (add_item st name category publisher quantity price min_stock).2.2 =
          (if isLowStock item then
            some ⟨normalizeName name, item.quantity, item.min_stock⟩
          else none)) ∧
    (∀ (st : Store) (selected_item raw_new_name category publisher : String)
        (price : ℚ) (quantity min_stock : Int) (old : Item),
      lookup st selected_item = some old →
      ∃ st' item,
        update_item st selected_item raw_new_name category publisher
            price quantity min_stock =
          some (st',
            if isLowStock item then
              some ⟨normalizeName raw_new_name, item.quantity, item.min_stock⟩
            else none) ∧
        lookup st' (normalizeName raw_new_name) = some item) ∧
    (∀ (st : Store) (k : String),
      k ∈ low_stock_names st ↔
        ∃ item, (k, item) ∈ st ∧ item.quantity < item.min_stock) := by
  refine ⟨?_, ?_, ?_⟩
  · intro st name category publisher quantity price min_stock h
    cases h2 : lookup st (normalizeName name) with
    | none =>
      rw [add_item_eq_absent st name category publisher quantity price
        min_stock h h2]
      refine ⟨_, lookup_setKey_self _ _ _, ?_⟩
      exact check_stock_balance_eq _ _ _ (lookup_setKey_self _ _ _)
    | some old =>
      rw [add_item_eq_present st name category publisher quantity price
        min_stock old h h2]
      have hl : lookup (bumpQuantity st (normalizeName name) quantity)
          (normalizeName name) =
          some { old with quantity := old.quantity + quantity } := by
        rw [lookup_bumpQuantity_self, h2, Option.map_some']
      exact ⟨_, hl, check_stock_balance_eq _ _ _ hl⟩
  · intro st selected_item raw_new_name category publisher price quantity
      min_stock old hsel
    rw [update_item_eq st selected_item raw_new_name category publisher
      price quantity min_stock old hsel]
    have hl := lookup_setKey_self
      (if normalizeName raw_new_name ≠ selected_item then
        setKey (popKey st selected_item) (normalizeName raw_new_name) old
      else st)
      (normalizeName raw_new_name)
      { category := category, publisher := publisher, price := price,
        quantity := quantity, min_stock := min_stock }
    refine ⟨_, _, ?_, hl⟩
    rw [check_stock_balance_eq _ _ _ hl]
  · intro st k
    exact mem_low_stock_names st k

/-- Witness for C6: adding a below-threshold quantity surfaces the warning
with the item's name, quantity and threshold; updating to a low quantity
does too; the view-time list contains exactly the low item. -/
theorem low_stock_alert_spec_witness :
    (∃ item,
      lookup (add_item [] " pad " "Paper Products" "B" 2 2 5).1
          (normalizeName " pad ") = some item ∧
      (add_item [] " pad " "Paper Products" "B" 2 2 5).2.2 =
        (if isLowStock item then
          some ⟨normalizeName " pad ", item.quantity, item.min_stock⟩
        else none)) ∧
    (∃ st' item,
      update_item [("Pen", itemA)] "Pen" "Pen" "Office Supplies" "Abc" 3 2 5 =
        some (st',
          if isLowStock item then
            some ⟨normalizeName "Pen", item.quantity, item.min_stock⟩
          else none) ∧
      lookup st' (normalizeName "Pen") = some item) ∧
    ("Pad" ∈ low_stock_names [("Pen", itemA), ("Pad", itemB)] ↔
      ∃ item, ("Pad", item) ∈ [("Pen", itemA), ("Pad", itemB)] ∧
        item.quantity < item.min_stock) :=
  ⟨low_stock_alert_spec.1 [] " pad " "Paper Products" "B" 2 2 5 (by decide),
   low_stock_alert_spec.2.1 [("Pen", itemA)] "Pen" "Pen" "Office Supplies"
     "Abc" 3 2 5 itemA (by decide),
   low_stock_alert_spec.2.2 [("Pen", itemA), ("Pad", itemB)] "Pad"⟩

/-- C7: name normalization (strip + title-case) is idempotent; the inputs
"  pen ", "Pen" and "PEN" all normalize to the key "Pen"; and add, search
and update are invariant under replacing a raw name input by any other raw
input with the same normalization — all three address the store through the
same `normalizeName`. -/
theorem normalization_spec :
    (∀ s, normalizeName (normalizeName s) = normalizeName s) ∧
    normalizeName "  pen " = "Pen" ∧
    normalizeName "Pen" = "Pen" ∧
    normalizeName "PEN" = "Pen" ∧
    (∀ (st : Store) (r1 r2 category publisher selected_item : String)
        (quantity : Int) (price : ℚ) (min_stock : Int),
      normalizeName r1 = normalizeName r2 →
      add_item st r1 category publisher quantity price min_stock =
          add_item st r2 category publisher quantity price min_stock ∧
        search_item st r1 = search_item st r2 ∧
        update_item st selected_item r1 category publisher price quantity
            min_stock =
          update_item st selected_item r2 category publisher price quantity
            min_stock) := by
  refine ⟨normalizeName_idem, by decide, by decide, by decide, ?_⟩
  intro st r1 r2 category publisher selected_item quantity price min_stock h
  refine ⟨?_, ?_, ?_⟩
  · simp only [add_item, h]
  · simp only [search_item, h]
  · simp only [update_item, h]

/-- Witness for C7: the three sample spellings address the same key, so a
search for "PEN" behaves like a search for "  pen ". -/
theorem normalization_spec_witness :
    normalizeName "  pen " = "Pen" ∧
    search_item [("Pen", itemA)] "  pen " = search_item [("Pen", itemA)] "PEN" :=
  ⟨normalization_spec.2.1,
   (normalization_spec.2.2.2.2 [("Pen", itemA)] "  pen " "PEN" "" "" "" 0 0 0
     (by decide)).2.1⟩

/-- C8: the only failure conditions are a blank normalized name in add
(reported as the validation-error outcome, store unchanged, no warning) and
a lookup miss in search (reported as the not-found outcome); a blank search
term renders nothing; search never touches the store (it returns only a
`SearchOutcome`); and update on an existing selection always yields a result
value. -/
theorem failure_modes_spec :
    (∀ (st : Store) (name category publisher : String) (quantity : Int)
        (price : ℚ) (min_stock : Int),
      normalizeName name = "" →
      add_item st name category publisher quantity price min_stock =
        (st, AddOutcome.blankName, none)) ∧
    (∀ (st : Store) (raw : String),
      normalizeName raw = "" → search_item st raw = SearchOutcome.blank) ∧
    (∀ (st : Store) (raw : String),
      normalizeName raw ≠ "" → lookup st (normalizeName raw) = none →
      search_item st raw = SearchOutcome.notFound) ∧
    (∀ (st : Store) (raw : String) (item : Item),
      normalizeName raw ≠ "" → lookup st (normalizeName raw) = some item →
      search_item st raw = SearchOutcome.found item (isLowStock item)) ∧
    (∀ (st : Store) (selected_item raw_new_name category publisher : String)
        (price : ℚ) (quantity min_stock : Int) (old : Item),
      lookup st selected_item = some old →
      ∃ r, update_item st selected_item raw_new_name category publisher
        price quantity min_stock = some r) := by
  refine ⟨?_, ?_, ?_, ?_, ?_⟩
  · intro st name category publisher quantity price min_stock h
    exact add_item_eq_blank st name category publisher quantity price
      min_stock h
  · intro st raw h
    rw [search_item]
    simp only [if_pos h]
  · intro st raw h1 h2
    rw [search_item]
    simp only [if_neg h1, h2]
  · intro st raw item h1 h2
    rw [search_item]
    simp only [if_neg h1, h2, isLowStock]
  · intro st selected_item raw_new_name category publisher price quantity
      min_stock old hsel
    exact ⟨_, update_item_eq st selected_item raw_new_name category publisher
      price quantity min_stock old hsel⟩

/-- Witness for C8: a whitespace-only add is rejected with the store
unchanged; a miss and a hit in search; update on an existing key yields a
result. -/
theorem failure_modes_spec_witness :
    add_item [("Pen", itemA)] "  " "Art & Craft" "B" 1 1 1 =
      ([("Pen", itemA)], AddOutcome.blankName, none) ∧
    search_item [("Pen", itemA)] " " = SearchOutcome.blank ∧
    search_item [("Pen", itemA)] "eraser" = SearchOutcome.notFound ∧
    search_item [("Pen", itemA)] "pen" =
      SearchOutcome.found itemA (isLowStock itemA) ∧
    ∃ r, update_item [("Pen", itemA)] "Pen" "Pen" "Office Supplies" "Abc"
      3 1 5 = some r :=
  ⟨failure_modes_spec.1 [("Pen", itemA)] "  " "Art & Craft" "B" 1 1 1
     (by decide),
   failure_modes_spec.2.1 [("Pen", itemA)] " " (by decide),
   failure_modes_spec.2.2.1 [("Pen", itemA)] "eraser" (by decide) (by decide),
   failure_modes_spec.2.2.2.1 [("Pen", itemA)] "pen" itemA (by decide)
     (by decide),
   failure_modes_spec.2.2.2.2 [("Pen", itemA)] "Pen" "Pen" "Office Supplies"
     "Abc" 3 1 5 itemA (by decide)⟩

/-- C10 (implicit): nonnegativity is an invariant of the store.  If every
add/update submission respects the `min_value=0` constraints of the numeric
form inputs (quantity, price, minimum stock all nonnegative), then every
record of every reachable store has nonnegative quantity, price and
`min_stock`; in particular incrementing an existing record's quantity by a
nonnegative amount keeps it nonnegative. -/
theorem reachable_nonneg_spec (st : Store) (h : Reachable st) :
    ∀ p ∈ st, 0 ≤ p.2.quantity ∧ 0 ≤ p.2.price ∧ 0 ≤ p.2.min_stock := by
  induction h with
  | empty =>
    intro p hp
    exact absurd hp (List.not_mem_nil p)
  | add st name category publisher quantity price min_stock hst hq hpr hm ih =>
    intro p hp
    by_cases hn : normalizeName name = ""
    · rw [add_item_eq_blank st name category publisher quantity price
        min_stock hn] at hp
      exact ih p hp
    · cases h2 : lookup st (normalizeName name) with
      | some old =>
        rw [add_item_eq_present st name category publisher quantity price
          min_stock old hn h2] at hp
        rcases mem_bumpQuantity st _ quantity p hp with h1 | ⟨v, hv, rfl⟩
        · exact ih p h1
        · have hvm := ih (normalizeName name, v) hv
          have hv1 : (0 : Int) ≤ v.quantity := hvm.1
          refine ⟨?_, hvm.2.1, hvm.2.2⟩
          show (0 : Int) ≤ v.quantity + quantity
          omega
      | none =>
        rw [add_item_eq_absent st name category publisher quantity price
          min_stock hn h2] at hp
        rcases mem_setKey st _ _ p hp with h1 | rfl
        · exact ih p h1
        · exact ⟨hq, hpr, hm⟩
  | update st selected_item raw_new_name category publisher price quantity
      min_stock st' w hst hq hpr hm hupd ih =>
    intro p hp
    cases hsel : lookup st selected_item with
    | none =>
      rw [update_item, hsel] at hupd
      exact absurd hupd (by simp)
    | some old =>
      rw [update_item_eq st selected_item raw_new_name category publisher
        price quantity min_stock old hsel, Option.some.injEq,
        Prod.mk.injEq] at hupd
      obtain ⟨hst2, hw⟩ := hupd
      subst hst2
      rcases mem_setKey _ _ _ p hp with h1 | rfl
      · by_cases hren : normalizeName raw_new_name ≠ selected_item
        · rw [if_pos hren] at h1
          rcases mem_setKey _ _ _ p h1 with h3 | rfl
          · exact ih p (mem_popKey st selected_item p h3)
          · exact ih (selected_item, old) (mem_of_lookup_eq_some hsel)
        · rw [if_neg hren] at h1
          exact ih p h1
      · exact ⟨hq, hpr, hm⟩

/-- Witness for C10: the store reached by one valid add from the empty store
satisfies the invariant at its record. -/
theorem reachable_nonneg_spec_witness :
    0 ≤ ("Pen", itemA).2.quantity ∧ 0 ≤ ("Pen", itemA).2.price ∧
      0 ≤ ("Pen", itemA).2.min_stock :=
  reachable_nonneg_spec
    (add_item [] " pen " "Office Supplies" " abc " 10 3 5).1
    (Reachable.add [] " pen " "Office Supplies" " abc " 10 3 5
      Reachable.empty (by decide) (by norm_num) (by decide))
    ("Pen", itemA) (by decide)
